import Mathlib

/-
Verification of the reporting/aggregation pipeline of the Anyang visitor-log
application (src/app.py) against its natural-language specification.

Python strings are modelled as lists of characters (`PyStr`), so that the
string operations used by the source (split, strip, join, startswith) can be
embedded as structurally recursive Lean functions.  Numbers are Nat/Int and
pandas float arithmetic is idealised as exact rational arithmetic with
round-to-one-decimal.
-/

/-- A Python string, modelled as its list of characters. -/
abbrev PyStr := List Char

/-- Python `str.strip()`: remove leading and trailing whitespace. -/
def pyStrip (s : PyStr) : PyStr :=
  ((s.dropWhile Char.isWhitespace).reverse.dropWhile Char.isWhitespace).reverse

/-- Python `s.split(sep)` for a single-character separator `sep`:
`"".split(sep) = [""]`, and every occurrence of `sep` starts a new piece. -/
def splitOnChar (sep : Char) : PyStr → List PyStr
  | [] => [[]]
  | c :: rest =>
    if c = sep then [] :: splitOnChar sep rest
    else
      match splitOnChar sep rest with
      | [] => [[c]]
      | t :: ts => (c :: t) :: ts

/-- Python `s.split(", ")`: split on the exact two-character separator
comma-space, scanning left to right (the separator cannot overlap itself). -/
def splitCommaSpace : PyStr → List PyStr
  | [] => [[]]
  | ',' :: ' ' :: rest => [] :: splitCommaSpace rest
  | c :: rest =>
    match splitCommaSpace rest with
    | [] => [[c]]
    | t :: ts => (c :: t) :: ts

/-- Python `sep.join(xs)`. -/
def joinWith (sep : PyStr) : List PyStr → PyStr
  | [] => []
  | [x] => x
  | x :: y :: xs => x ++ sep ++ joinWith sep (y :: xs)

/-! The fixed category enumerations of src/app.py (lines 31-44). -/

def GENDER_OPTIONS : List PyStr := ["여성".data, "남성".data, "기타".data]

def AGE_OPTIONS : List PyStr :=
  ["만19~24세".data, "만25~29세".data, "만30~34세".data, "만35~39세".data]

def RESIDENCE_OPTIONS : List PyStr :=
  ["안양시 동안구".data, "안양시 만안구".data, "안양시 비거주(안양활동 청년)".data, "기타".data]

def VISIT_TYPE_OPTIONS : List PyStr := ["첫방문".data, "재방문(2회 이상)".data]

def PURPOSE_OPTIONS : List PyStr :=
  ["공간 프로그램 참여".data, "공부 및 개인작업".data, "미팅 및 워크숍".data,
   "공용PC, 프린터".data, "간단한 식사 공간".data, "청년 공간이 궁금해서".data, "기타".data]

/-- The "other" purpose tag literal. -/
def gita : PyStr := "기타".data

/-- The prefix marking an "other" tag with attached free text. -/
def gitaColon : PyStr := "기타:".data

/-- The purpose option that itself contains the `", "` join separator. -/
def pcTag : PyStr := "공용PC, 프린터".data

/-! ## Category codec

Encoding: src/app.py lines 163-165 and 173 (`visitor_submit`): keep every
selected non-"기타" tag, then, if "기타" is selected, append `"기타:" ++ other`
when `other` is non-empty and the bare `"기타"` otherwise; join with `", "`. -/

def encodePurpose (purposes : List PyStr) (other : PyStr) : PyStr :=
  let plist := purposes.filter (fun p => p ≠ gita)
  let plist :=
    if gita ∈ purposes then
      plist ++ [if other ≠ [] then gitaColon ++ other else gita]
    else plist
  joinWith ", ".data plist

/-- One step of the token loop of `admin_fetch_one` (src/app.py lines 425-432).
A token that starts with `"기타:"` contributes the tag `"기타"` and overwrites
the other-text with the stripped suffix (`it.replace("기타:", "", 1).strip()`
equals dropping the prefix, since the token starts with it); a token equal to
`"기타"` contributes the tag; other tokens contribute themselves when they are
members of `PURPOSE_OPTIONS` and are dropped otherwise. -/
def decodeStep (acc : List PyStr × PyStr) (it : PyStr) : List PyStr × PyStr :=
  if gitaColon.isPrefixOf it then (acc.1 ++ [gita], pyStrip (it.drop gitaColon.length))
  else if it = gita then (acc.1 ++ [gita], acc.2)
  else if it ∈ PURPOSE_OPTIONS then (acc.1 ++ [it], acc.2)
  else acc

/-- Decoding: src/app.py lines 422-432 (`admin_fetch_one`): split the stored
purpose string on `","`, strip each piece, drop empty pieces, then run the
token loop starting from no tags and empty other-text. -/
def decodePurpose (s : PyStr) : List PyStr × PyStr :=
  let items := ((splitOnChar ',' s).map pyStrip).filter (fun t => t ≠ [])
  items.foldl decodeStep ([], [])

/-! ## Visit records and the record store

One row of the `visits` table (src/app.py lines 56-67).  All stored fields are
text except the auto-assigned integer id. -/

structure Visit where
  id : Int
  created_at : PyStr
  visit_date : PyStr
  gender : PyStr
  age_group : PyStr
  residence : PyStr
  purpose : PyStr
  visit_type : PyStr
deriving DecidableEq

/-- `delete_visit` (src/app.py lines 98-105).  The SQL
`DELETE FROM visits WHERE id = ?` removes exactly the rows whose id matches and
`cur.rowcount` reports how many were removed; modelled over the table as a list
of rows. -/
def delete_visit (db : List Visit) (record_id : Int) : List Visit × Nat :=
  (db.filter (fun v => v.id ≠ record_id), db.countP (fun v => v.id = record_id))

/-- `update_visit` (src/app.py lines 107-118).  The SQL `UPDATE ... WHERE id=?`
rewrites the listed fields of exactly the rows whose id matches and
`cur.rowcount` reports how many rows matched. -/
def update_visit (db : List Visit) (record_id : Int) (visit_date gender age
    residence purpose visit_type : PyStr) : List Visit × Nat :=
  (db.map (fun v =>
      if v.id = record_id then
        { v with visit_date := visit_date, gender := gender, age_group := age,
                 residence := residence, purpose := purpose,
                 visit_type := visit_type }
      else v),
   db.countP (fun v => v.id = record_id))

/-! ## Aggregator -/

/-- Decimal rounding to one place, idealising pandas `.round(1)` on the exact
rational value of `count / total * 100`. -/
def round1 (q : ℚ) : ℚ := (round (q * 10) : ℤ) / 10

/-- Stable insertion of a labelled count into a list sorted by descending
count: `x` goes in front of the first entry with a strictly smaller count. -/
def insertDesc (x : PyStr × Nat) : List (PyStr × Nat) → List (PyStr × Nat)
  | [] => [x]
  | y :: ys => if y.2 < x.2 then x :: y :: ys else y :: insertDesc x ys

/-- Stable sort by descending count, modelling the descending order of pandas
`value_counts` (the order among equal counts is fixed by neither pandas nor any
claim). -/
def sortDescByCount (l : List (PyStr × Nat)) : List (PyStr × Nat) :=
  l.foldr insertDesc []

/-- The distinct values of `l` paired with their multiplicities, the content of
pandas `value_counts` before sorting. -/
def valueCounts (l : List PyStr) : List (PyStr × Nat) :=
  l.dedup.map (fun v => (v, l.countP (fun x => x = v)))

/-- `calc_ratio` (src/app.py lines 190-198): frequency/percentage breakdown of
one categorical column.  `col` extracts the column from a row (all modelled
columns are already strings, so `fillna("").astype(str)` is the identity);
`percent = round(count / total * 100, 1)`, or `0` for every row if the total is
zero. -/
def calc_ratio (df : List Visit) (col : Visit → PyStr) : List (PyStr × Nat × ℚ) :=
  if df.isEmpty then []
  else
    let s := df.map col
    let c := sortDescByCount (valueCounts s)
    let total : Nat := (c.map (fun x => x.2)).sum
    c.map (fun x =>
      (x.1, x.2, if total = 0 then 0 else round1 ((x.2 : ℚ) / (total : ℚ) * 100)))

/-- The exploded purpose-token multiset of `calc_purpose_ratio` (src/app.py
line 203-204): each row's purpose string is split on the exact separator
`", "`, the pieces are concatenated in row order, and empty pieces are
discarded. -/
def purposeTokens (df : List Visit) : List PyStr :=
  ((df.map (fun r => splitCommaSpace r.purpose)).flatten).filter (fun t => t ≠ [])

/-- `calc_purpose_ratio` (src/app.py lines 200-209): the same
count/percentage logic applied to the exploded purpose-token multiset. -/
def calc_purpose_ratio (df : List Visit) : List (PyStr × Nat × ℚ) :=
  if df.isEmpty then []
  else
    let temp := purposeTokens df
    let c := sortDescByCount (valueCounts temp)
    let total : Nat := (c.map (fun x => x.2)).sum
    c.map (fun x =>
      (x.1, x.2, if total = 0 then 0 else round1 ((x.2 : ℚ) / (total : ℚ) * 100)))

/-- The token multiset that claim C6 describes: split each purpose string on
the comma character, trim each token, discard empties.  (Spec-side definition,
for comparison with the implementation's `", "` split.) -/
def claimedPurposeTokens (df : List Visit) : List PyStr :=
  ((df.map (fun r => (splitOnChar ',' r.purpose).map pyStrip)).flatten).filter
    (fun t => t ≠ [])

/-! ## Calendar series builder

Dates are proleptic-Gregorian triples, as manipulated by Python
`datetime.date` / pandas `date_range`.  `toRD` is `date.toordinal`: the number
of days from 0001-01-01 (= day 1); `weekday` follows Python's convention
Monday = 0 .. Sunday = 6. -/

structure Date where
  year : Nat
  month : Nat
  day : Nat
deriving DecidableEq

def isLeap (y : Nat) : Bool := (y % 4 == 0 && y % 100 != 0) || y % 400 == 0

/-- Length of month `m` (1-12) in a leap (`true`) or common year. -/
def monthLen (leap : Bool) (m : Nat) : Nat :=
  match m with
  | 1 => 31 | 2 => if leap then 29 else 28 | 3 => 31 | 4 => 30
  | 5 => 31 | 6 => 30 | 7 => 31 | 8 => 31 | 9 => 30 | 10 => 31
  | 11 => 30 | 12 => 31 | _ => 0

/-- Days before month `m` (1-12) within a year. -/
def monthsBefore (leap : Bool) (m : Nat) : Nat :=
  let l : Nat := if leap then 1 else 0
  match m with
  | 1 => 0 | 2 => 31 | 3 => 59 + l | 4 => 90 + l | 5 => 120 + l | 6 => 151 + l
  | 7 => 181 + l | 8 => 212 + l | 9 => 243 + l | 10 => 273 + l
  | 11 => 304 + l | 12 => 334 + l | _ => 0

/-- Days in all years strictly before year `y` (standard Gregorian count). -/
def daysBeforeYear (y : Nat) : Nat :=
  365 * (y - 1) + (y - 1) / 4 + (y - 1) / 400 - (y - 1) / 100

/-- `date.toordinal`: 0001-01-01 is day 1. -/
def toRD (d : Date) : Nat :=
  daysBeforeYear d.year + monthsBefore (isLeap d.year) d.month + d.day

/-- A calendar-valid date with a positive year. -/
def validDate (d : Date) : Prop :=
  1 ≤ d.year ∧ 1 ≤ d.month ∧ d.month ≤ 12 ∧ 1 ≤ d.day ∧
    d.day ≤ monthLen (isLeap d.year) d.month

instance : DecidablePred validDate := fun d => by unfold validDate; infer_instance

/-- `date.weekday()`: Monday = 0, ..., Sunday = 6. -/
def weekday (d : Date) : Nat := (toRD d + 6) % 7

/-- The next calendar day. -/
def succDate (d : Date) : Date :=
  if d.day < monthLen (isLeap d.year) d.month then ⟨d.year, d.month, d.day + 1⟩
  else if d.month < 12 then ⟨d.year, d.month + 1, 1⟩
  else ⟨d.year + 1, 1, 1⟩

/-- `n` consecutive calendar days starting at `cur`. -/
def goDates : Nat → Date → List Date
  | 0, _ => []
  | n + 1, cur => cur :: goDates n (succDate cur)

/-- `pd.date_range(start, end, freq="D")`: every calendar day of the inclusive
range. -/
def dateRange (s e : Date) : List Date := goDates (toRD e + 1 - toRD s) s

/-- Python `int()` on a digit string. -/
def pyDigitsVal (s : PyStr) : Nat := s.foldl (fun a c => 10 * a + (c.toNat - 48)) 0

/-- `datetime.strptime(s, "%Y-%m-%d").date()` (src/app.py lines 215-216):
`%Y` matches exactly four digits, `%m`/`%d` one or two digits in range
(month 1-12, day 1-31, no "00"), the whole string must be consumed, and the
`date` constructor then rejects days past the month's end and year 0. -/
def parsePyDate (s : PyStr) : Option Date :=
  match splitOnChar '-' s with
  | [ys, ms, ds] =>
    if ys.length = 4 ∧ ys.all Char.isDigit ∧
       1 ≤ ms.length ∧ ms.length ≤ 2 ∧ ms.all Char.isDigit ∧
       1 ≤ ds.length ∧ ds.length ≤ 2 ∧ ds.all Char.isDigit then
      let y := pyDigitsVal ys
      let m := pyDigitsVal ms
      let d := pyDigitsVal ds
      if 1 ≤ y ∧ 1 ≤ m ∧ m ≤ 12 ∧ 1 ≤ d ∧ d ≤ monthLen (isLeap y) m then
        some ⟨y, m, d⟩
      else none
    else none
  | _ => none

/-- Left-pad with zeros to width `w`. -/
def padZeros (w : Nat) (s : PyStr) : PyStr := List.replicate (w - s.length) '0' ++ s

/-- `d.strftime("%Y-%m-%d")` for the four-digit years the parser accepts. -/
def fmtDate (d : Date) : PyStr :=
  padZeros 4 (Nat.toDigits 10 d.year) ++
    '-' :: padZeros 2 (Nat.toDigits 10 d.month) ++
    '-' :: padZeros 2 (Nat.toDigits 10 d.day)

/-- The four possible shapes of `make_daily_counts`'s return value: the two
warning returns (unparseable dates at lines 217-219, reversed range at lines
221-223), the degenerate empty-series return when every day of the range is an
excluded Sunday (lines 228-231), and the normal return carrying the series and
the summary numbers `(excluded sundays, computed days, total, average)` shown
in the summary message. -/
inductive DailyResult where
  | formatError : DailyResult
  | rangeError : DailyResult
  | noDays : DailyResult
  | ok : List (PyStr × Nat) → Nat → Nat → Nat → ℚ → DailyResult
deriving DecidableEq

/-- `make_daily_counts` (src/app.py lines 213-253).  Sundays
(`weekday == 6`) are excluded; each remaining day is paired with the number of
rows whose `visit_date` equals that day's formatted string (`value_counts` +
`map` + `fillna(0)`); the empty-dataframe branch writes zero counts directly. -/
def make_daily_counts (df : List Visit) (start end_ : PyStr) : DailyResult :=
  match parsePyDate start, parsePyDate end_ with
  | some start_dt, some end_dt =>
    if toRD end_dt < toRD start_dt then .rangeError
    else
      let all_days := dateRange start_dt end_dt
      let days_no_sun := all_days.filter (fun d => weekday d ≠ 6)
      if days_no_sun.length = 0 then .noDays
      else
        let excluded_sundays := (all_days.filter (fun d => weekday d = 6)).length
        if df.isEmpty then
          .ok (days_no_sun.map (fun d => (fmtDate d, 0))) excluded_sundays
            days_no_sun.length 0 0
        else
          let daily := days_no_sun.map
            (fun d => (fmtDate d, df.countP (fun r => r.visit_date = fmtDate d)))
          let total := (daily.map (fun x => x.2)).sum
          .ok daily excluded_sundays days_no_sun.length total
            ((total : ℚ) / (days_no_sun.length : ℚ))
  | _, _ => .formatError

/-! ## Matrix exporter -/

/-- Point update of a purpose-flag dictionary (keyed by the fixed purpose
options; only those keys are ever read). -/
def flagUpdate (f : PyStr → Nat) (k : PyStr) (v : Nat) : PyStr → Nat :=
  fun x => if x = k then v else f x

/-- A token that marks the "other" purpose: `it.startswith("기타:") or it ==
"기타"`. -/
def gitaTok (it : PyStr) : Bool := gitaColon.isPrefixOf it || it == gita

/-- `purpose_to_flags` (src/app.py lines 257-267): strip the stored string,
split on `","`, strip and drop empty tokens, then set the `"기타"` flag for any
other-marked token and the token's own flag when it is one of the fixed
options. -/
def purposeItems (purpose_str : PyStr) : List PyStr :=
  ((splitOnChar ',' (pyStrip purpose_str)).map pyStrip).filter (fun t => t ≠ [])

def purpose_to_flags (purpose_str : PyStr) : PyStr → Nat :=
  (purposeItems purpose_str).foldl
    (fun flags it =>
      if gitaTok it then flagUpdate flags gita 1
      else if it ∈ PURPOSE_OPTIONS then flagUpdate flags it 1
      else flags)
    (fun _ => 0)

/-- One-hot block of a single-valued field over its option list
(`[1 if k == value else 0 for k in OPTIONS]`). -/
def oneHot (opts : List PyStr) (v : PyStr) : List Nat :=
  opts.map (fun k => if k = v then 1 else 0)

/-- One data row of the checksheet (src/app.py lines 288-293): the id followed
by the concatenated flag blocks. -/
def buildRow (r : Visit) : Int × List Nat :=
  (r.id,
   oneHot GENDER_OPTIONS r.gender ++ oneHot AGE_OPTIONS r.age_group ++
     oneHot RESIDENCE_OPTIONS r.residence ++
     PURPOSE_OPTIONS.map (purpose_to_flags r.purpose) ++
     oneHot VISIT_TYPE_OPTIONS r.visit_type)

/-- `build_checksheet_matrix` (src/app.py lines 269-302): the flat sub-header
row, the totals row (the id column replaced by the literal `"합계"`, every
other column summed over the data rows), and the data rows. -/
def build_checksheet_matrix (df : List Visit) :
    List PyStr × (PyStr × List Nat) × List (Int × List Nat) :=
  let sub_headers := ["연번".data] ++ GENDER_OPTIONS ++ AGE_OPTIONS ++
    RESIDENCE_OPTIONS ++ PURPOSE_OPTIONS ++ VISIT_TYPE_OPTIONS
  let rows := df.map buildRow
  let sums := rows.foldl
    (fun acc r => List.zipWith (fun a b => a + b) acc r.2)
    (List.replicate (sub_headers.length - 1) 0)
  (sub_headers, ("합계".data, sums), rows)

/-- The per-option purpose-flag value that claim C5 describes (spec-side
definition for comparison): the `"기타"` column is set exactly when some token
is other-marked, any other option's column exactly when that option occurs as
a token. -/
def purposeFlagSpec (purpose_str : PyStr) (p : PyStr) : Nat :=
  if p = gita then (if (purposeItems purpose_str).any gitaTok then 1 else 0)
  else (if p ∈ purposeItems purpose_str then 1 else 0)

/-! ## String lemmas -/

theorem splitOnChar_ne_nil (sep : Char) : ∀ s : PyStr, splitOnChar sep s ≠ []
  | [] => by simp [splitOnChar]
  | c :: rest => by
    rw [splitOnChar]
    split
    · exact List.cons_ne_nil _ _
    · split
      · exact List.cons_ne_nil _ _
      · exact List.cons_ne_nil _ _

theorem splitOnChar_of_not_mem {sep : Char} : ∀ {s : PyStr}, sep ∉ s →
    splitOnChar sep s = [s]
  | [], _ => by simp [splitOnChar]
  | c :: rest, h => by
    have hc : ¬ c = sep := fun e => h (e ▸ List.mem_cons_self c rest)
    have h' : sep ∉ rest := fun hm => h (List.mem_cons_of_mem _ hm)
    rw [splitOnChar, if_neg hc, splitOnChar_of_not_mem h']

theorem splitOnChar_append {sep : Char} (r : PyStr) :
    ∀ {a : PyStr}, sep ∉ a → splitOnChar sep (a ++ sep :: r) = a :: splitOnChar sep r
  | [], _ => by simp [splitOnChar]
  | c :: a', h => by
    have hc : ¬ c = sep := fun e => h (e ▸ List.mem_cons_self c a')
    have h' : sep ∉ a' := fun hm => h (List.mem_cons_of_mem _ hm)
    rw [List.cons_append, splitOnChar, if_neg hc, splitOnChar_append r h']

theorem pyStrip_cons_ws {c : Char} {s : PyStr} (hc : c.isWhitespace = true) :
    pyStrip (c :: s) = pyStrip s := by
  simp [pyStrip, List.dropWhile_cons_of_pos hc]

theorem pyStrip_parts {l : PyStr} (h : pyStrip l = l) :
    l.dropWhile Char.isWhitespace = l ∧
      l.reverse.dropWhile Char.isWhitespace = l.reverse := by
  have hsuf1 : (l.dropWhile Char.isWhitespace).length ≤ l.length :=
    (List.dropWhile_suffix _).length_le
  have hsuf2 :
      ((l.dropWhile Char.isWhitespace).reverse.dropWhile Char.isWhitespace).length ≤
        (l.dropWhile Char.isWhitespace).length := by
    simpa using (List.dropWhile_suffix (l := (l.dropWhile Char.isWhitespace).reverse)
      Char.isWhitespace).length_le
  have hlen : (pyStrip l).length = l.length := by rw [h]
  have hlen2 :
      (pyStrip l).length =
        ((l.dropWhile Char.isWhitespace).reverse.dropWhile Char.isWhitespace).length := by
    simp [pyStrip]
  have hd : l.dropWhile Char.isWhitespace = l :=
    (List.dropWhile_suffix _).eq_of_length (by omega)
  refine ⟨hd, ?_⟩
  have : pyStrip l = (l.reverse.dropWhile Char.isWhitespace).reverse := by
    rw [pyStrip, hd]
  rw [this] at h
  calc l.reverse.dropWhile Char.isWhitespace
      = ((l.reverse.dropWhile Char.isWhitespace).reverse).reverse := by
        rw [List.reverse_reverse]
    _ = l.reverse := by rw [h]

theorem dropWhile_cons_whole {p : α → Bool} {c : α} {t : List α} (hc : ¬ p c) :
    (c :: t).dropWhile p = c :: t := List.dropWhile_cons_of_neg hc

theorem pyStrip_gitaColon_append {other : PyStr} (hot : pyStrip other = other)
    (hne : other ≠ []) : pyStrip (gitaColon ++ other) = gitaColon ++ other := by
  obtain ⟨h1, h2⟩ := pyStrip_parts hot
  obtain ⟨c, t, hct⟩ := List.exists_cons_of_ne_nil
    (fun e => hne (by simpa using congrArg List.reverse e) : other.reverse ≠ [])
  have hcw : ¬ (Char.isWhitespace c = true) := by
    have := List.dropWhile_eq_self_iff.mp h2
    rw [hct] at this
    simpa using this (by simp)
  have front : (gitaColon ++ other).dropWhile Char.isWhitespace = gitaColon ++ other := by
    show (('기' : Char) :: ("타:".data ++ other)).dropWhile Char.isWhitespace = _
    rw [dropWhile_cons_whole (by decide)]
    rfl
  have back : (gitaColon ++ other).reverse.dropWhile Char.isWhitespace =
      (gitaColon ++ other).reverse := by
    rw [List.reverse_append, hct, List.cons_append]
    exact dropWhile_cons_whole hcw
  rw [pyStrip, front, back, List.reverse_reverse]

theorem tokens_of_joinWith :
    ∀ l : List PyStr, l ≠ [] →
      (∀ x ∈ l, ',' ∉ x ∧ x ≠ [] ∧ pyStrip x = x) →
      (splitOnChar ',' (joinWith ", ".data l)).map pyStrip = l
  | [], h, _ => absurd rfl h
  | [x], _, hx => by
    have hxp := hx x (by simp)
    rw [joinWith, splitOnChar_of_not_mem hxp.1]
    simp [hxp.2.2]
  | x :: y :: t, _, hx => by
    have hxp := hx x (by simp)
    have ih := tokens_of_joinWith (y :: t) (by simp)
      (fun z hz => hx z (List.mem_cons_of_mem _ hz))
    rw [joinWith]
    have hsep : x ++ ", ".data ++ joinWith ", ".data (y :: t) =
        x ++ ',' :: (' ' :: joinWith ", ".data (y :: t)) := by
      rw [List.append_assoc]; rfl
    rw [hsep, splitOnChar_append _ hxp.1]
    obtain ⟨t0, ts0, hsplit⟩ : ∃ t0 ts0,
        splitOnChar ',' (joinWith ", ".data (y :: t)) = t0 :: ts0 := by
      cases hJ : splitOnChar ',' (joinWith ", ".data (y :: t)) with
      | nil => exact absurd hJ (splitOnChar_ne_nil _ _)
      | cons a b => exact ⟨a, b, rfl⟩
    have hsp2 : splitOnChar ',' (' ' :: joinWith ", ".data (y :: t)) =
        (' ' :: t0) :: ts0 := by
      rw [splitOnChar, if_neg (by decide), hsplit]
    rw [hsp2]
    rw [hsplit] at ih
    simp only [List.map_cons] at ih ⊢
    rw [hxp.2.2, pyStrip_cons_ws (by decide)]
    rw [List.cons_inj_right]
    exact ih

theorem foldl_decodeStep_plain :
    ∀ (ts : List PyStr) (acc : List PyStr × PyStr),
      (∀ x ∈ ts, x ∈ PURPOSE_OPTIONS ∧ x ≠ gita ∧ gitaColon.isPrefixOf x = false) →
      ts.foldl decodeStep acc = (acc.1 ++ ts, acc.2)
  | [], acc, _ => by simp
  | x :: ts, acc, h => by
    have hx := h x (List.mem_cons_self x ts)
    have step : decodeStep acc x = (acc.1 ++ [x], acc.2) := by
      rw [decodeStep, if_neg (by simp [hx.2.2]), if_neg hx.2.1, if_pos hx.1]
    rw [List.foldl_cons, step,
      foldl_decodeStep_plain ts _ (fun z hz => h z (List.mem_cons_of_mem _ hz))]
    simp

theorem purpose_opts_plain :
    ∀ p ∈ PURPOSE_OPTIONS, p ≠ gita → gitaColon.isPrefixOf p = false := by decide

theorem purpose_opts_wf :
    ∀ p ∈ PURPOSE_OPTIONS, p ≠ pcTag → (',' ∉ p ∧ p ≠ [] ∧ pyStrip p = p) := by decide

theorem decode_of_encode_items (l : List PyStr) (hne : l ≠ [])
    (hall : ∀ x ∈ l, ',' ∉ x ∧ x ≠ [] ∧ pyStrip x = x) :
    decodePurpose (joinWith ", ".data l) = l.foldl decodeStep ([], []) := by
  rw [decodePurpose, tokens_of_joinWith l hne hall]
  rw [List.filter_eq_self.mpr (fun a ha => by simpa using (hall a ha).2.1)]

/-- C1: the round-trip law as literally claimed is false: it fails on the
singleton tag set containing the enumeration's own option `"공용PC, 프린터"`
(with empty other-text), because that tag contains the `", "` join separator
and decoding splits it into two unknown tokens, both silently dropped. -/
theorem c1_counterexample :
    pcTag ∈ [pcTag] ∧ (decodePurpose (encodePurpose [pcTag] [])).1 = [] ∧
      pcTag ∉ (decodePurpose (encodePurpose [pcTag] [])).1 := by decide

/-- C1 (amended): for every non-empty selection of purpose tags drawn from
`PURPOSE_OPTIONS` other than the comma-containing option `"공용PC, 프린터"`,
and every comma-free, whitespace-trimmed other-text that is non-empty only
when `"기타"` is selected, decoding the encoded purpose string recovers
exactly the original tag set and the original other-text. -/
theorem c1_roundtrip (purposes : List PyStr) (other : PyStr)
    (hne : purposes ≠ [])
    (hmem : ∀ p ∈ purposes, p ∈ PURPOSE_OPTIONS ∧ p ≠ pcTag)
    (hoc : ',' ∉ other) (hot : pyStrip other = other)
    (hoe : other ≠ [] → gita ∈ purposes) :
    (∀ t, t ∈ (decodePurpose (encodePurpose purposes other)).1 ↔ t ∈ purposes) ∧
      (decodePurpose (encodePurpose purposes other)).2 = other := by
  classical
  set p0 := purposes.filter (fun p => p ≠ gita) with hp0
  have hp0mem : ∀ x ∈ p0, x ∈ purposes ∧ x ≠ gita := by
    intro x hx
    rw [hp0, List.mem_filter] at hx
    exact ⟨hx.1, by simpa using hx.2⟩
  have hp0wf : ∀ x ∈ p0, ',' ∉ x ∧ x ≠ [] ∧ pyStrip x = x := by
    intro x hx
    have h1 := hp0mem x hx
    exact purpose_opts_wf x (hmem x h1.1).1 (hmem x h1.1).2
  have hp0plain : ∀ x ∈ p0, x ∈ PURPOSE_OPTIONS ∧ x ≠ gita ∧
      gitaColon.isPrefixOf x = false := by
    intro x hx
    have h1 := hp0mem x hx
    exact ⟨(hmem x h1.1).1, h1.2, purpose_opts_plain x (hmem x h1.1).1 h1.2⟩
  by_cases hg : gita ∈ purposes
  · set tok := if other ≠ [] then gitaColon ++ other else gita with htok
    have henc : encodePurpose purposes other = joinWith ", ".data (p0 ++ [tok]) := by
      simp only [encodePurpose, if_pos hg, htok, hp0]
    have htokwf : ',' ∉ tok ∧ tok ≠ [] ∧ pyStrip tok = tok := by
      by_cases ho : other = []
      · rw [htok, if_neg (by simp [ho])]
        refine ⟨by decide, by decide, by decide⟩
      · rw [htok, if_pos ho]
        refine ⟨?_, by simp [gitaColon], pyStrip_gitaColon_append hot ho⟩
        intro hmm
        rcases List.mem_append.mp hmm with h | h
        · revert h; decide
        · exact hoc h
    have hall : ∀ x ∈ p0 ++ [tok], ',' ∉ x ∧ x ≠ [] ∧ pyStrip x = x := by
      intro x hx
      rcases List.mem_append.mp hx with h | h
      · exact hp0wf x h
      · rw [List.mem_singleton] at h; subst h; exact htokwf
    have hdec : decodePurpose (encodePurpose purposes other)
        = (p0 ++ [gita], other) := by
      rw [henc, decode_of_encode_items _ (by simp) hall, List.foldl_append,
        foldl_decodeStep_plain p0 ([], []) hp0plain]
      by_cases ho : other = []
      · rw [htok, if_neg (by simp [ho])]
        show decodeStep (([] : List PyStr) ++ p0, []) gita = _
        rw [decodeStep, if_neg (by decide), if_pos rfl]
        simp [ho]
      · rw [htok, if_pos ho]
        show decodeStep (([] : List PyStr) ++ p0, []) (gitaColon ++ other) = _
        rw [decodeStep,
          if_pos (by exact List.isPrefixOf_iff_prefix.mpr (List.prefix_append _ _)),
          List.drop_left, hot]
        simp
    rw [hdec]
    refine ⟨?_, rfl⟩
    intro t
    simp only [List.mem_append, List.mem_singleton]
    constructor
    · rintro (h | rfl)
      · exact (hp0mem t h).1
      · exact hg
    · intro h
      by_cases ht : t = gita
      · exact Or.inr ht
      · exact Or.inl (by rw [hp0, List.mem_filter]; exact ⟨h, by simpa using ht⟩)
  · have ho : other = [] := by
      by_contra h; exact hg (hoe h)
    have hp0eq : p0 = purposes := by
      rw [hp0, List.filter_eq_self]
      intro a ha
      simp only [ne_eq, decide_eq_true_eq]
      intro e
      exact hg (e ▸ ha)
    have henc : encodePurpose purposes other = joinWith ", ".data p0 := by
      simp only [encodePurpose, if_neg hg, hp0]
    have hdec : decodePurpose (encodePurpose purposes other) = (p0, []) := by
      rw [henc, decode_of_encode_items _ (by rw [hp0eq]; exact hne) hp0wf,
        foldl_decodeStep_plain p0 ([], []) hp0plain]
      simp
    rw [hdec, hp0eq, ho]
    exact ⟨fun t => Iff.rfl, rfl⟩

/-- C1 witness: a concrete round trip through `c1_roundtrip`. -/
theorem c1_roundtrip_witness :
    (["공부 및 개인작업".data, gita] : List PyStr) ≠ [] ∧
      ((∀ t, t ∈ (decodePurpose
            (encodePurpose ["공부 및 개인작업".data, gita] "bike".data)).1 ↔
          t ∈ ["공부 및 개인작업".data, gita]) ∧
        (decodePurpose
            (encodePurpose ["공부 및 개인작업".data, gita] "bike".data)).2 =
          "bike".data) :=
  ⟨by decide,
   c1_roundtrip ["공부 및 개인작업".data, gita] "bike".data (by decide) (by decide)
     (by decide) (by decide) (by decide)⟩

/-! ## Calendar lemmas -/

theorem monthLen_pos : ∀ L : Bool, ∀ m ≤ 12, 1 ≤ m → 1 ≤ monthLen L m := by decide

theorem monthsBefore_one (L : Bool) : monthsBefore L 1 = 0 := by cases L <;> rfl

theorem monthsBefore_succ : ∀ L : Bool, ∀ m ≤ 11, 1 ≤ m →
    monthsBefore L (m + 1) = monthsBefore L m + monthLen L m := by decide

theorem monthsBefore_last : ∀ L : Bool,
    monthsBefore L 12 + monthLen L 12 = 365 + (if L then 1 else 0) := by decide

theorem monthsBefore_len_le : ∀ L : Bool, ∀ m ≤ 12, 1 ≤ m →
    monthsBefore L m + monthLen L m ≤ 365 + (if L then 1 else 0) := by decide

theorem monthsBefore_lt_mono : ∀ L : Bool, ∀ m' ≤ 12, ∀ m ≤ m', 1 ≤ m → m < m' →
    monthsBefore L m + monthLen L m ≤ monthsBefore L m' := by decide

theorem isLeap_iff {y : Nat} :
    isLeap y = true ↔ ((y % 4 = 0 ∧ y % 100 ≠ 0) ∨ y % 400 = 0) := by
  simp [isLeap]

theorem daysBeforeYear_succ {y : Nat} (hy : 1 ≤ y) :
    daysBeforeYear (y + 1) = daysBeforeYear y + 365 + (if isLeap y then 1 else 0) := by
  unfold daysBeforeYear
  simp only [Nat.add_sub_cancel]
  by_cases d4 : y % 4 = 0 <;> by_cases d100 : y % 100 = 0 <;>
    by_cases d400 : y % 400 = 0 <;>
    simp [isLeap, d4, d100, d400] <;> omega

theorem daysBeforeYear_mono {y y' : Nat} (h : y ≤ y') :
    daysBeforeYear y ≤ daysBeforeYear y' := by
  unfold daysBeforeYear
  have h1 : (y - 1) / 4 ≤ (y' - 1) / 4 := Nat.div_le_div_right (by omega)
  have h2 : (y - 1) / 400 ≤ (y' - 1) / 400 := Nat.div_le_div_right (by omega)
  have h3 : (y - 1) / 100 ≤ (y - 1) / 4 := Nat.div_le_div_left (by norm_num) (by norm_num)
  omega

theorem toRD_succ {d : Date} (h : validDate d) : toRD (succDate d) = toRD d + 1 := by
  obtain ⟨hy, hm1, hm2, hd1, hd2⟩ := h
  rw [succDate]
  by_cases hlt : d.day < monthLen (isLeap d.year) d.month
  · rw [if_pos hlt]
    simp only [toRD]
    omega
  · rw [if_neg hlt]
    have hday : d.day = monthLen (isLeap d.year) d.month := by omega
    by_cases hm : d.month < 12
    · rw [if_pos hm]
      simp only [toRD]
      rw [monthsBefore_succ (isLeap d.year) d.month (by omega) hm1]
      omega
    · rw [if_neg hm]
      have hm12 : d.month = 12 := by omega
      simp only [toRD]
      rw [monthsBefore_one, daysBeforeYear_succ hy]
      have hml := monthsBefore_last (isLeap d.year)
      rw [hm12] at hday ⊢
      omega

theorem validDate_succ {d : Date} (h : validDate d) : validDate (succDate d) := by
  obtain ⟨hy, hm1, hm2, hd1, hd2⟩ := h
  rw [succDate]
  by_cases hlt : d.day < monthLen (isLeap d.year) d.month
  · rw [if_pos hlt]
    refine ⟨?_, ?_, ?_, ?_, ?_⟩ <;> dsimp only <;> omega
  · rw [if_neg hlt]
    by_cases hm : d.month < 12
    · rw [if_pos hm]
      have hp := monthLen_pos (isLeap d.year) (d.month + 1) (by omega) (by omega)
      refine ⟨?_, ?_, ?_, ?_, ?_⟩ <;> dsimp only <;> omega
    · rw [if_neg hm]
      have hp := monthLen_pos (isLeap (d.year + 1)) 1 (by omega) (by omega)
      refine ⟨?_, ?_, ?_, ?_, ?_⟩ <;> dsimp only <;> omega

theorem toRD_bounds {d : Date} (h : validDate d) :
    daysBeforeYear d.year < toRD d ∧ toRD d ≤ daysBeforeYear (d.year + 1) := by
  obtain ⟨hy, hm1, hm2, hd1, hd2⟩ := h
  constructor
  · rw [toRD]; omega
  · rw [toRD, daysBeforeYear_succ hy]
    have := monthsBefore_len_le (isLeap d.year) d.month hm2 hm1
    omega

theorem toRD_inj {d e : Date} (hd : validDate d) (he : validDate e)
    (h : toRD d = toRD e) : d = e := by
  have hyear : d.year = e.year := by
    by_contra hne
    rcases Nat.lt_or_ge d.year e.year with hlt | hge
    · have b1 := (toRD_bounds hd).2
      have b2 := (toRD_bounds he).1
      have := daysBeforeYear_mono (show d.year + 1 ≤ e.year by omega)
      omega
    · have hlt : e.year < d.year := by omega
      have b1 := (toRD_bounds he).2
      have b2 := (toRD_bounds hd).1
      have := daysBeforeYear_mono (show e.year + 1 ≤ d.year by omega)
      omega
  obtain ⟨hy, hm1, hm2, hd1, hd2⟩ := hd
  obtain ⟨hy', hm1', hm2', hd1', hd2'⟩ := he
  rw [toRD, toRD, hyear] at h
  have hmonth : d.month = e.month := by
    by_contra hne
    rcases Nat.lt_or_ge d.month e.month with hlt | hge
    · have := monthsBefore_lt_mono (isLeap e.year) e.month hm2' d.month
        (by omega) (by omega) hlt
      rw [hyear] at hd2
      omega
    · have hlt : e.month < d.month := by omega
      have := monthsBefore_lt_mono (isLeap e.year) d.month (by omega) e.month
        (by omega) (by omega) hlt
      rw [hyear] at hd2
      omega
  have hdd : d.day = e.day := by
    rw [hmonth] at h
    omega
  cases d; cases e
  simp only at hyear hmonth hdd
  rw [hyear, hmonth, hdd]

theorem goDates_length : ∀ (n : Nat) (cur : Date), (goDates n cur).length = n
  | 0, _ => rfl
  | n + 1, cur => by rw [goDates, List.length_cons, goDates_length n]

theorem goDates_forward : ∀ (n : Nat) (cur : Date), validDate cur →
    ∀ d ∈ goDates n cur, validDate d ∧ toRD cur ≤ toRD d ∧ toRD d < toRD cur + n
  | 0, cur, _, d, hd => by simp [goDates] at hd
  | n + 1, cur, hv, d, hd => by
    rw [goDates] at hd
    rcases List.mem_cons.mp hd with rfl | hmem
    · exact ⟨hv, le_refl _, by omega⟩
    · have := goDates_forward n (succDate cur) (validDate_succ hv) d hmem
      rw [toRD_succ hv] at this
      exact ⟨this.1, by omega, by omega⟩

theorem goDates_complete : ∀ (n : Nat) (cur : Date), validDate cur →
    ∀ d, validDate d → toRD cur ≤ toRD d → toRD d < toRD cur + n → d ∈ goDates n cur
  | 0, cur, _, d, _, h1, h2 => by omega
  | n + 1, cur, hv, d, hvd, h1, h2 => by
    rw [goDates]
    by_cases heq : toRD d = toRD cur
    · rw [toRD_inj hvd hv heq]
      exact List.mem_cons_self _ _
    · refine List.mem_cons_of_mem _
        (goDates_complete n (succDate cur) (validDate_succ hv) d hvd ?_ ?_)
      · rw [toRD_succ hv]; omega
      · rw [toRD_succ hv]; omega

theorem goDates_pairwise : ∀ (n : Nat) (cur : Date), validDate cur →
    (goDates n cur).Pairwise (fun a b => toRD a < toRD b)
  | 0, _, _ => List.Pairwise.nil
  | n + 1, cur, hv => by
    rw [goDates]
    refine List.Pairwise.cons ?_ (goDates_pairwise n (succDate cur) (validDate_succ hv))
    intro b hb
    have := goDates_forward n (succDate cur) (validDate_succ hv) b hb
    rw [toRD_succ hv] at this
    omega

theorem parsePyDate_valid {s : PyStr} {d : Date} (h : parsePyDate s = some d) :
    validDate d := by
  simp only [parsePyDate] at h
  split at h
  · split at h
    · split at h
      · rename_i hB
        cases h
        exact ⟨hB.1, hB.2.1, hB.2.2.1, hB.2.2.2.1, hB.2.2.2.2⟩
      · exact Option.noConfusion h
    · exact Option.noConfusion h
  · exact Option.noConfusion h

/-- C8: when either boundary fails to parse as a YYYY-MM-DD calendar date, or
the end date is strictly earlier than the start date, `make_daily_counts`
returns the corresponding warning result (the code's rendering of
`InvalidRangeError`) instead of a normal series. -/
theorem c8_invalid_range (df : List Visit) (start end_ : PyStr) :
    ((parsePyDate start = none ∨ parsePyDate end_ = none) →
      make_daily_counts df start end_ = DailyResult.formatError) ∧
    (∀ sd ed, parsePyDate start = some sd → parsePyDate end_ = some ed →
      toRD ed < toRD sd →
      make_daily_counts df start end_ = DailyResult.rangeError) := by
  constructor
  · intro h
    rcases h with h | h
    · cases he : parsePyDate end_ <;> simp [make_daily_counts, h, he]
    · cases hs : parsePyDate start <;> simp [make_daily_counts, h, hs]
  · intro sd ed hs he hlt
    simp only [make_daily_counts, hs, he]
    rw [if_pos hlt]

/-- C8 witness: an unparseable start date and a reversed range on concrete
inputs. -/
theorem c8_invalid_range_witness :
    (parsePyDate "2024-13-01".data = none ∨ parsePyDate "2024-06-09".data = none) ∧
      make_daily_counts [] "2024-13-01".data "2024-06-09".data =
        DailyResult.formatError ∧
      parsePyDate "2024-06-10".data = some ⟨2024, 6, 10⟩ ∧
      parsePyDate "2024-06-09".data = some ⟨2024, 6, 9⟩ ∧
      toRD ⟨2024, 6, 9⟩ < toRD ⟨2024, 6, 10⟩ ∧
      make_daily_counts [] "2024-06-10".data "2024-06-09".data =
        DailyResult.rangeError :=
  ⟨Or.inl (by decide),
   (c8_invalid_range [] "2024-13-01".data "2024-06-09".data).1 (Or.inl (by decide)),
   by decide, by decide, by decide,
   (c8_invalid_range [] "2024-06-10".data "2024-06-09".data).2 ⟨2024, 6, 10⟩
     ⟨2024, 6, 9⟩ (by decide) (by decide) (by decide)⟩

/-- C2: for a valid range with at least one non-Sunday day, the series is
exactly the non-Sunday dates of the inclusive range in calendar order, one
entry per such date (count 1 in the underlying date list), each paired with
the number of rows whose `visit_date` equals that date's formatted string
(0 when none match) — calendar-complete, never sparse. -/
theorem c2_calendar_complete (df : List Visit) (start end_ : PyStr) (sd ed : Date)
    (hs : parsePyDate start = some sd) (he : parsePyDate end_ = some ed)
    (hle : toRD sd ≤ toRD ed)
    (hex : ∃ d ∈ dateRange sd ed, weekday d ≠ 6) :
    ∃ exc tot avg,
      make_daily_counts df start end_ =
        DailyResult.ok
          (((dateRange sd ed).filter (fun d => weekday d ≠ 6)).map
            (fun d => (fmtDate d, df.countP (fun r => r.visit_date = fmtDate d))))
          exc (((dateRange sd ed).filter (fun d => weekday d ≠ 6)).length) tot avg ∧
      (∀ d, validDate d →
        ((dateRange sd ed).filter (fun d => weekday d ≠ 6)).count d =
          (if toRD sd ≤ toRD d ∧ toRD d ≤ toRD ed ∧ weekday d ≠ 6 then 1 else 0)) ∧
      ((dateRange sd ed).filter (fun d => weekday d ≠ 6)).Pairwise
        (fun a b => toRD a < toRD b) := by
  have hvs : validDate sd := parsePyDate_valid hs
  have hpairAll : (dateRange sd ed).Pairwise (fun a b => toRD a < toRD b) :=
    goDates_pairwise _ sd hvs
  have hpair := hpairAll.filter (fun d => decide (weekday d ≠ 6))
  have hnodupAll : (dateRange sd ed).Nodup :=
    hpairAll.imp (fun hlt => fun heq => by rw [heq] at hlt; omega)
  have hnodup := hnodupAll.filter (fun d => decide (weekday d ≠ 6))
  have hcount : ∀ d, validDate d →
      ((dateRange sd ed).filter (fun d => weekday d ≠ 6)).count d =
        (if toRD sd ≤ toRD d ∧ toRD d ≤ toRD ed ∧ weekday d ≠ 6 then 1 else 0) := by
    intro d hvd
    by_cases hc : toRD sd ≤ toRD d ∧ toRD d ≤ toRD ed ∧ weekday d ≠ 6
    · rw [if_pos hc]
      apply List.count_eq_one_of_mem hnodup
      rw [List.mem_filter]
      exact ⟨goDates_complete _ sd hvs d hvd hc.1 (by omega), by simpa using hc.2.2⟩
    · rw [if_neg hc, List.count_eq_zero]
      intro hmem
      rw [List.mem_filter] at hmem
      have hb := goDates_forward _ sd hvs d hmem.1
      exact hc ⟨hb.2.1, by omega, by simpa using hmem.2⟩
  simp only [make_daily_counts, hs, he]
  rw [if_neg (by omega)]
  have hnz : (((dateRange sd ed).filter (fun d => weekday d ≠ 6)).length = 0) = False := by
    simp only [eq_iff_iff, iff_false]
    intro h0
    obtain ⟨d0, hd0, hw⟩ := hex
    have hm : d0 ∈ (dateRange sd ed).filter (fun d => weekday d ≠ 6) :=
      List.mem_filter.mpr ⟨hd0, by simpa using hw⟩
    rw [List.length_eq_zero.mp h0] at hm
    exact List.not_mem_nil d0 hm
  rw [if_neg (hnz ▸ not_false)]
  by_cases hdf : df.isEmpty
  · rw [if_pos hdf]
    rw [List.isEmpty_iff.mp hdf]
    simp only [List.countP_nil]
    exact ⟨_, _, _, rfl, hcount, hpair⟩
  · rw [if_neg hdf]
    exact ⟨_, _, _, rfl, hcount, hpair⟩

/-- C2 witness: the spec's own scenario — range 2024-06-03..2024-06-09 with a
single visit on the Monday. -/
theorem c2_calendar_complete_witness :
    toRD (⟨2024, 6, 3⟩ : Date) ≤ toRD (⟨2024, 6, 9⟩ : Date) ∧
      (∃ exc tot avg,
        make_daily_counts
            [⟨1, [], "2024-06-03".data, [], [], [], [], []⟩]
            "2024-06-03".data "2024-06-09".data =
          DailyResult.ok
            (((dateRange ⟨2024, 6, 3⟩ ⟨2024, 6, 9⟩).filter
                (fun d => weekday d ≠ 6)).map
              (fun d => (fmtDate d,
                ([⟨1, [], "2024-06-03".data, [], [], [], [], []⟩] :
                    List Visit).countP (fun r => r.visit_date = fmtDate d))))
            exc
            (((dateRange ⟨2024, 6, 3⟩ ⟨2024, 6, 9⟩).filter
                (fun d => weekday d ≠ 6)).length) tot avg ∧
        (∀ d, validDate d →
          ((dateRange ⟨2024, 6, 3⟩ ⟨2024, 6, 9⟩).filter
              (fun d => weekday d ≠ 6)).count d =
            (if toRD (⟨2024, 6, 3⟩ : Date) ≤ toRD d ∧
                toRD d ≤ toRD (⟨2024, 6, 9⟩ : Date) ∧ weekday d ≠ 6
              then 1 else 0)) ∧
        ((dateRange ⟨2024, 6, 3⟩ ⟨2024, 6, 9⟩).filter
            (fun d => weekday d ≠ 6)).Pairwise (fun a b => toRD a < toRD b)) :=
  ⟨by decide,
   c2_calendar_complete [⟨1, [], "2024-06-03".data, [], [], [], [], []⟩]
     "2024-06-03".data "2024-06-09".data ⟨2024, 6, 3⟩ ⟨2024, 6, 9⟩
     (by decide) (by decide) (by decide) (by decide)⟩

theorem sum_map_snd_pair_zero {a b : Type} (l : List a) (f : a → b) :
    (l.map ((fun x : b × Nat => x.2) ∘ fun d => (f d, 0))).sum = 0 := by
  induction l with
  | nil => rfl
  | cons x t ih => simpa using ih

/-- C3: for a valid parsed range the result is never one of the two warning
returns; a normal result's total is the sum of the series counts, its included
plus excluded day counts partition the inclusive range (whose size is the
ordinal difference plus one), and its average is total over included days; the
degenerate `noDays` result (empty series, zero computable days, not an error)
occurs exactly when every day of the range is an excluded Sunday. -/
theorem c3_summary (df : List Visit) (start end_ : PyStr) (sd ed : Date)
    (hs : parsePyDate start = some sd) (he : parsePyDate end_ = some ed)
    (hle : toRD sd ≤ toRD ed) :
    make_daily_counts df start end_ ≠ DailyResult.formatError ∧
    make_daily_counts df start end_ ≠ DailyResult.rangeError ∧
    (∀ series exc inc tot avg,
      make_daily_counts df start end_ = DailyResult.ok series exc inc tot avg →
      tot = (series.map (fun x => x.2)).sum ∧
      inc + exc = (dateRange sd ed).length ∧
      (dateRange sd ed).length = toRD ed + 1 - toRD sd ∧
      avg = (tot : ℚ) / (inc : ℚ)) ∧
    (make_daily_counts df start end_ = DailyResult.noDays →
      ∀ d ∈ dateRange sd ed, weekday d = 6) ∧
    ((∀ d ∈ dateRange sd ed, weekday d = 6) →
      make_daily_counts df start end_ = DailyResult.noDays) := by
  have hpart : ((dateRange sd ed).filter (fun d => weekday d ≠ 6)).length +
      ((dateRange sd ed).filter (fun d => weekday d = 6)).length =
      (dateRange sd ed).length := by
    have h := @List.length_eq_length_filter_add Date (dateRange sd ed)
      (fun d => decide (weekday d = 6))
    simp only [ne_eq, decide_not]
    omega
  simp only [make_daily_counts, hs, he]
  rw [if_neg (by omega)]
  by_cases hz : ((dateRange sd ed).filter (fun d => weekday d ≠ 6)).length = 0
  · rw [if_pos hz]
    refine ⟨by simp, by simp, ?_, ?_, fun _ => rfl⟩
    · intro series exc inc tot avg h
      exact absurd h (by simp)
    · intro _ d hd
      have hnil := List.filter_eq_nil_iff.mp (List.length_eq_zero.mp hz)
      have := hnil d hd
      simpa using this
  · rw [if_neg hz]
    have hnosun : ¬ (∀ d ∈ dateRange sd ed, weekday d = 6) := by
      intro hall
      apply hz
      rw [List.length_eq_zero, List.filter_eq_nil_iff]
      intro d hd
      simp [hall d hd]
    by_cases hdf : df.isEmpty
    · rw [if_pos hdf]
      refine ⟨by simp, by simp, ?_, fun h => absurd h (by simp),
        fun hall => absurd hall hnosun⟩
      intro series exc inc tot avg h
      injection h with h1 h2 h3 h4 h5
      subst h1; subst h2; subst h3; subst h4; subst h5
      refine ⟨by rw [List.map_map]; exact (sum_map_snd_pair_zero _ _).symm,
        ?_, goDates_length _ _, by simp⟩
      omega
    · rw [if_neg hdf]
      refine ⟨by simp, by simp, ?_, fun h => absurd h (by simp),
        fun hall => absurd hall hnosun⟩
      intro series exc inc tot avg h
      injection h with h1 h2 h3 h4 h5
      subst h1; subst h2; subst h3; subst h4; subst h5
      refine ⟨rfl, ?_, goDates_length _ _, rfl⟩
      omega

/-- C3 witness: the same scenario instantiates the summary laws. -/
theorem c3_summary_witness :
    toRD (⟨2024, 6, 3⟩ : Date) ≤ toRD (⟨2024, 6, 9⟩ : Date) ∧
      (make_daily_counts ([] : List Visit) "2024-06-03".data "2024-06-09".data ≠
          DailyResult.formatError ∧
        make_daily_counts ([] : List Visit) "2024-06-03".data "2024-06-09".data ≠
          DailyResult.rangeError ∧
        (∀ series exc inc tot avg,
          make_daily_counts ([] : List Visit) "2024-06-03".data "2024-06-09".data =
            DailyResult.ok series exc inc tot avg →
          tot = (series.map (fun x => x.2)).sum ∧
          inc + exc = (dateRange ⟨2024, 6, 3⟩ ⟨2024, 6, 9⟩).length ∧
          (dateRange ⟨2024, 6, 3⟩ ⟨2024, 6, 9⟩).length =
            toRD (⟨2024, 6, 9⟩ : Date) + 1 - toRD (⟨2024, 6, 3⟩ : Date) ∧
          avg = (tot : ℚ) / (inc : ℚ)) ∧
        (make_daily_counts ([] : List Visit) "2024-06-03".data "2024-06-09".data =
            DailyResult.noDays →
          ∀ d ∈ dateRange ⟨2024, 6, 3⟩ ⟨2024, 6, 9⟩, weekday d = 6) ∧
        ((∀ d ∈ dateRange ⟨2024, 6, 3⟩ ⟨2024, 6, 9⟩, weekday d = 6) →
          make_daily_counts ([] : List Visit) "2024-06-03".data "2024-06-09".data =
            DailyResult.noDays)) :=
  ⟨by decide,
   c3_summary [] "2024-06-03".data "2024-06-09".data ⟨2024, 6, 3⟩ ⟨2024, 6, 9⟩
     (by decide) (by decide) (by decide)⟩

/-! ## Matrix lemmas -/

theorem foldl_zipWith_length {α : Type} (f : α → List Nat) :
    ∀ (rows : List α) (acc : List Nat),
      (∀ r ∈ rows, (f r).length = acc.length) →
      (rows.foldl (fun a r => List.zipWith (fun x y => x + y) a (f r)) acc).length =
        acc.length
  | [], acc, _ => rfl
  | r :: rest, acc, h => by
    rw [List.foldl_cons]
    have hlen : (List.zipWith (fun x y => x + y) acc (f r)).length = acc.length := by
      rw [List.length_zipWith, h r (List.mem_cons_self r rest)]
      omega
    rw [foldl_zipWith_length f rest _
      (fun z hz => by rw [hlen]; exact h z (List.mem_cons_of_mem _ hz)), hlen]

theorem foldl_zipWith_getD {α : Type} (f : α → List Nat) :
    ∀ (rows : List α) (acc : List Nat) (j : Nat),
      (∀ r ∈ rows, (f r).length = acc.length) → j < acc.length →
      (rows.foldl (fun a r => List.zipWith (fun x y => x + y) a (f r)) acc).getD j 0 =
        acc.getD j 0 + (rows.map (fun r => (f r).getD j 0)).sum
  | [], acc, j, _, _ => by simp
  | r :: rest, acc, j, h, hj => by
    rw [List.foldl_cons]
    have hrl := h r (List.mem_cons_self r rest)
    have hlen : (List.zipWith (fun x y => x + y) acc (f r)).length = acc.length := by
      rw [List.length_zipWith, hrl]; omega
    rw [foldl_zipWith_getD f rest _ j
      (fun z hz => by rw [hlen]; exact h z (List.mem_cons_of_mem _ hz))
      (by omega)]
    have hz : (List.zipWith (fun x y => x + y) acc (f r)).getD j 0 =
        acc.getD j 0 + (f r).getD j 0 := by
      rw [List.getD_eq_getElem (List.zipWith (fun x y => x + y) acc (f r)) 0
          (by rw [hlen]; exact hj),
        List.getD_eq_getElem acc 0 hj,
        List.getD_eq_getElem (f r) 0 (by rw [hrl]; exact hj),
        List.getElem_zipWith]
    rw [hz, List.map_cons, List.sum_cons]
    omega

theorem buildRow_flags_length (v : Visit) : (buildRow v).2.length = 20 := by
  simp [buildRow, oneHot, GENDER_OPTIONS, AGE_OPTIONS, RESIDENCE_OPTIONS,
    PURPOSE_OPTIONS, VISIT_TYPE_OPTIONS]

/-- C4: the totals row of the checksheet matrix carries the literal `"합계"`
marker in the id column, and each of the 20 flag columns is the sum over all
data rows of that column's value. -/
theorem c4_totals_row (df : List Visit) :
    (build_checksheet_matrix df).2.1.1 = "합계".data ∧
    (build_checksheet_matrix df).2.1.2.length = 20 ∧
    (build_checksheet_matrix df).2.1.2 =
      (List.range 20).map (fun j =>
        ((build_checksheet_matrix df).2.2.map (fun r => r.2.getD j 0)).sum) := by
  have hsub : ((["연번".data] ++ GENDER_OPTIONS ++ AGE_OPTIONS ++ RESIDENCE_OPTIONS ++
      PURPOSE_OPTIONS ++ VISIT_TYPE_OPTIONS : List PyStr).length - 1) = 20 := by decide
  have hrows : ∀ r ∈ df.map buildRow, r.2.length = (List.replicate 20 (0 : Nat)).length := by
    intro r hr
    obtain ⟨v, _, rfl⟩ := List.mem_map.mp hr
    rw [buildRow_flags_length, List.length_replicate]
  have hlen : (build_checksheet_matrix df).2.1.2.length = 20 := by
    simp only [build_checksheet_matrix, hsub]
    rw [foldl_zipWith_length (fun r => r.2) (df.map buildRow) _ hrows,
      List.length_replicate]
  refine ⟨rfl, hlen, ?_⟩
  apply List.ext_getElem
  · rw [hlen, List.length_map, List.length_range]
  · intro j h1 h2
    have hj : j < 20 := by rw [hlen] at h1; exact h1
    have hr : ((List.range 20).map (fun j =>
        ((build_checksheet_matrix df).2.2.map (fun r => r.2.getD j 0)).sum))[j] =
        ((build_checksheet_matrix df).2.2.map (fun r => r.2.getD j 0)).sum := by
      rw [List.getElem_map, List.getElem_range]
    rw [hr, ← List.getD_eq_getElem _ 0 h1]
    show (build_checksheet_matrix df).2.1.2.getD j 0 = _
    simp only [build_checksheet_matrix, hsub]
    rw [foldl_zipWith_getD (fun r => r.2) (df.map buildRow) _ j hrows
      (by rw [List.length_replicate]; exact hj),
      List.getD_eq_getElem (List.replicate 20 0) 0
        (by rw [List.length_replicate]; exact hj),
      List.getElem_replicate]
    simp

theorem oneHot_length (opts : List PyStr) (v : PyStr) :
    (oneHot opts v).length = opts.length := by
  simp [oneHot]

theorem oneHot_mem01 (opts : List PyStr) (v : PyStr) :
    ∀ x ∈ oneHot opts v, x = 0 ∨ x = 1 := by
  intro x hx
  obtain ⟨k, _, rfl⟩ := List.mem_map.mp hx
  by_cases h : k = v
  · rw [if_pos h]; exact Or.inr rfl
  · rw [if_neg h]; exact Or.inl rfl

theorem count_one_oneHot : ∀ (opts : List PyStr), opts.Nodup → ∀ v : PyStr,
    (oneHot opts v).count 1 = if v ∈ opts then 1 else 0
  | [], _, v => by simp [oneHot]
  | a :: t, hnd, v => by
    rw [List.nodup_cons] at hnd
    rw [oneHot, List.map_cons]
    have htail : (List.map (fun k => if k = v then 1 else 0) t) = oneHot t v := rfl
    by_cases hav : a = v
    · subst hav
      rw [if_pos rfl, List.count_cons_self, htail, count_one_oneHot t hnd.2 a,
        if_neg hnd.1, if_pos (List.mem_cons_self a t)]
    · rw [if_neg hav, List.count_cons_of_ne (by decide) _, htail,
        count_one_oneHot t hnd.2 v]
      by_cases hvt : v ∈ t
      · rw [if_pos hvt, if_pos (List.mem_cons_of_mem _ hvt)]
      · rw [if_neg hvt, if_neg (fun h => by
          rcases List.mem_cons.mp h with h1 | h1
          · exact hav h1.symm
          · exact hvt h1)]

theorem purpose_opts_no_gitaTok :
    ∀ p ∈ PURPOSE_OPTIONS, p ≠ gita → gitaTok p = false := by decide

theorem purpose_foldl_char : ∀ (items : List PyStr) (g : PyStr → Nat) (k : PyStr),
    (items.foldl (fun flags it =>
        if gitaTok it then flagUpdate flags gita 1
        else if it ∈ PURPOSE_OPTIONS then flagUpdate flags it 1
        else flags) g) k =
      if (k = gita ∧ items.any gitaTok = true) ∨
         (k ∈ PURPOSE_OPTIONS ∧ gitaTok k = false ∧ k ∈ items)
      then 1 else g k
  | [], g, k => by simp
  | it :: rest, g, k => by
    rw [List.foldl_cons, purpose_foldl_char rest _ k]
    by_cases hg : gitaTok it = true
    · rw [if_pos hg]
      by_cases hk : k = gita
      · subst hk
        have hcons : (gita = gita ∧ (it :: rest).any gitaTok = true) ∨
            (gita ∈ PURPOSE_OPTIONS ∧ gitaTok gita = false ∧ gita ∈ it :: rest) :=
          Or.inl ⟨rfl, by rw [List.any_cons, hg, Bool.true_or]⟩
        rw [if_pos hcons]
        split
        · rfl
        · simp [flagUpdate]
      · have helse : flagUpdate g gita 1 k = g k := by
          rw [flagUpdate]; exact if_neg hk
        rw [helse]
        refine if_congr ?_ rfl rfl
        constructor
        · rintro (⟨hkg, _⟩ | ⟨ho, hf, hm⟩)
          · exact absurd hkg hk
          · exact Or.inr ⟨ho, hf, List.mem_cons_of_mem _ hm⟩
        · rintro (⟨hkg, _⟩ | ⟨ho, hf, hm⟩)
          · exact absurd hkg hk
          · rcases List.mem_cons.mp hm with rfl | hm'
            · rw [hg] at hf; exact absurd hf (by simp)
            · exact Or.inr ⟨ho, hf, hm'⟩
    · rw [if_neg hg]
      by_cases hmem : it ∈ PURPOSE_OPTIONS
      · rw [if_pos hmem]
        by_cases hk : k = it
        · subst hk
          have hf : gitaTok k = false := Bool.eq_false_iff.mpr hg
          have hcons : (k = gita ∧ (k :: rest).any gitaTok = true) ∨
              (k ∈ PURPOSE_OPTIONS ∧ gitaTok k = false ∧ k ∈ k :: rest) :=
            Or.inr ⟨hmem, hf, List.mem_cons_self _ _⟩
          rw [if_pos hcons]
          split
          · rfl
          · simp [flagUpdate]
        · have helse : flagUpdate g it 1 k = g k := by
            simp only [flagUpdate]; exact if_neg hk
          rw [helse]
          refine if_congr ?_ rfl rfl
          constructor
          · rintro (⟨hkg, ha⟩ | ⟨ho, hf, hm⟩)
            · exact Or.inl ⟨hkg, by rw [List.any_cons, ha, Bool.or_true]⟩
            · exact Or.inr ⟨ho, hf, List.mem_cons_of_mem _ hm⟩
          · rintro (⟨hkg, ha⟩ | ⟨ho, hf, hm⟩)
            · refine Or.inl ⟨hkg, ?_⟩
              rw [List.any_cons] at ha
              rcases (Bool.or_eq_true _ _).mp ha with h1 | h1
              · exact absurd h1 hg
              · exact h1
            · rcases List.mem_cons.mp hm with rfl | hm'
              · exact absurd rfl hk
              · exact Or.inr ⟨ho, hf, hm'⟩
      · rw [if_neg hmem]
        refine if_congr ?_ rfl rfl
        constructor
        · rintro (⟨hkg, ha⟩ | ⟨ho, hf, hm⟩)
          · exact Or.inl ⟨hkg, by rw [List.any_cons, ha, Bool.or_true]⟩
          · exact Or.inr ⟨ho, hf, List.mem_cons_of_mem _ hm⟩
        · rintro (⟨hkg, ha⟩ | ⟨ho, hf, hm⟩)
          · refine Or.inl ⟨hkg, ?_⟩
            rw [List.any_cons] at ha
            rcases (Bool.or_eq_true _ _).mp ha with h1 | h1
            · exact absurd h1 hg
            · exact h1
          · rcases List.mem_cons.mp hm with rfl | hm'
            · exact absurd ho hmem
            · exact Or.inr ⟨ho, hf, hm'⟩

theorem purpose_to_flags_spec (s : PyStr) :
    ∀ k ∈ PURPOSE_OPTIONS, purpose_to_flags s k = purposeFlagSpec s k := by
  intro k hk
  rw [purpose_to_flags, purpose_foldl_char, purposeFlagSpec]
  by_cases hkg : k = gita
  · subst hkg
    rw [if_pos rfl]
    by_cases ha : (purposeItems s).any gitaTok = true
    · rw [if_pos (Or.inl ⟨rfl, ha⟩), if_pos ha]
    · rw [if_neg ?_, if_neg ha]
      rintro (⟨_, h⟩ | ⟨_, hgt, _⟩)
      · exact ha h
      · exact absurd hgt (by decide)
  · rw [if_neg hkg]
    have hgt : gitaTok k = false := purpose_opts_no_gitaTok k hk hkg
    by_cases hmem : k ∈ purposeItems s
    · rw [if_pos (Or.inr ⟨hk, hgt, hmem⟩), if_pos hmem]
    · rw [if_neg ?_, if_neg hmem]
      rintro (⟨hkg', _⟩ | ⟨_, _, hm⟩)
      · exact hkg hkg'
      · exact hmem hm

theorem gender_nodup : GENDER_OPTIONS.Nodup := by decide

theorem age_nodup : AGE_OPTIONS.Nodup := by decide

theorem residence_nodup : RESIDENCE_OPTIONS.Nodup := by decide

theorem visit_type_nodup : VISIT_TYPE_OPTIONS.Nodup := by decide

/-- C5: in every data row of the checksheet, each single-valued block
(gender, age, residence, visit type) consists of 0/1 flags with exactly one 1
when the stored value belongs to the field's enumeration and no 1 at all
otherwise; and the purpose block equals the claimed per-option
characterisation: the `"기타"` column is 1 exactly when some token is `"기타"`
or starts with `"기타:"`, any other option's column is 1 exactly when that
option occurs verbatim as a token (unknown tokens set no flag). -/
theorem c5_row_blocks (v : Visit) :
    (((buildRow v).2.take 3).count 1 =
        (if v.gender ∈ GENDER_OPTIONS then 1 else 0)) ∧
    (∀ x ∈ (buildRow v).2.take 3, x = 0 ∨ x = 1) ∧
    ((((buildRow v).2.drop 3).take 4).count 1 =
        (if v.age_group ∈ AGE_OPTIONS then 1 else 0)) ∧
    (∀ x ∈ ((buildRow v).2.drop 3).take 4, x = 0 ∨ x = 1) ∧
    ((((buildRow v).2.drop 7).take 4).count 1 =
        (if v.residence ∈ RESIDENCE_OPTIONS then 1 else 0)) ∧
    (∀ x ∈ ((buildRow v).2.drop 7).take 4, x = 0 ∨ x = 1) ∧
    (((buildRow v).2.drop 11).take 7 =
        PURPOSE_OPTIONS.map (purposeFlagSpec v.purpose)) ∧
    ((((buildRow v).2.drop 18).take 2).count 1 =
        (if v.visit_type ∈ VISIT_TYPE_OPTIONS then 1 else 0)) ∧
    (∀ x ∈ ((buildRow v).2.drop 18).take 2, x = 0 ∨ x = 1) := by
  have e1 : (buildRow v).2.take 3 = oneHot GENDER_OPTIONS v.gender := by
    show (oneHot GENDER_OPTIONS v.gender ++ _).take 3 = _
    exact List.take_left' (by rw [oneHot_length]; rfl)
  have e2 : (buildRow v).2.drop 3 =
      oneHot AGE_OPTIONS v.age_group ++ (oneHot RESIDENCE_OPTIONS v.residence ++
        (PURPOSE_OPTIONS.map (purpose_to_flags v.purpose) ++
          oneHot VISIT_TYPE_OPTIONS v.visit_type)) := by
    show (oneHot GENDER_OPTIONS v.gender ++ _).drop 3 = _
    exact List.drop_left' (by rw [oneHot_length]; rfl)
  have e3 : (buildRow v).2.drop 7 =
      oneHot RESIDENCE_OPTIONS v.residence ++
        (PURPOSE_OPTIONS.map (purpose_to_flags v.purpose) ++
          oneHot VISIT_TYPE_OPTIONS v.visit_type) := by
    rw [show (7 : Nat) = 3 + 4 from rfl, ← List.drop_drop, e2]
    exact List.drop_left' (by rw [oneHot_length]; rfl)
  have e4 : (buildRow v).2.drop 11 =
      PURPOSE_OPTIONS.map (purpose_to_flags v.purpose) ++
        oneHot VISIT_TYPE_OPTIONS v.visit_type := by
    rw [show (11 : Nat) = 7 + 4 from rfl, ← List.drop_drop, e3]
    exact List.drop_left' (by rw [oneHot_length]; rfl)
  have e5 : (buildRow v).2.drop 18 = oneHot VISIT_TYPE_OPTIONS v.visit_type := by
    rw [show (18 : Nat) = 11 + 7 from rfl, ← List.drop_drop, e4]
    exact List.drop_left' (by rw [List.length_map]; rfl)
  have t2 : ((buildRow v).2.drop 3).take 4 = oneHot AGE_OPTIONS v.age_group := by
    rw [e2]; exact List.take_left' (by rw [oneHot_length]; rfl)
  have t3 : ((buildRow v).2.drop 7).take 4 = oneHot RESIDENCE_OPTIONS v.residence := by
    rw [e3]; exact List.take_left' (by rw [oneHot_length]; rfl)
  have t4 : ((buildRow v).2.drop 11).take 7 =
      PURPOSE_OPTIONS.map (purpose_to_flags v.purpose) := by
    rw [e4]; exact List.take_left' (by rw [List.length_map]; rfl)
  have t5 : ((buildRow v).2.drop 18).take 2 =
      oneHot VISIT_TYPE_OPTIONS v.visit_type := by
    rw [e5]
    exact List.take_of_length_le (by rw [oneHot_length]; decide)
  refine ⟨?_, ?_, ?_, ?_, ?_, ?_, ?_, ?_, ?_⟩
  · rw [e1, count_one_oneHot _ gender_nodup]
  · rw [e1]; exact oneHot_mem01 _ _
  · rw [t2, count_one_oneHot _ age_nodup]
  · rw [t2]; exact oneHot_mem01 _ _
  · rw [t3, count_one_oneHot _ residence_nodup]
  · rw [t3]; exact oneHot_mem01 _ _
  · rw [t4]; exact List.map_congr_left (purpose_to_flags_spec v.purpose)
  · rw [t5, count_one_oneHot _ visit_type_nodup]
  · rw [t5]; exact oneHot_mem01 _ _

/-- C5 witness: the blocks of one concrete row, including an other-tagged
token and an unknown token that sets no flag. -/
theorem c5_row_blocks_witness :
    ((buildRow ⟨1, [], "2024-06-03".data, "여성".data, "만19~24세".data,
        "unknown".data, "기타:bike, junk".data, "첫방문".data⟩).2.take 3).count 1 =
      (if ("여성".data : PyStr) ∈ GENDER_OPTIONS then 1 else 0) ∧
    ((buildRow ⟨1, [], "2024-06-03".data, "여성".data, "만19~24세".data,
        "unknown".data, "기타:bike, junk".data, "첫방문".data⟩).2.drop 11).take 7 =
      PURPOSE_OPTIONS.map
        (purposeFlagSpec "기타:bike, junk".data) ∧
    (((buildRow ⟨1, [], "2024-06-03".data, "여성".data, "만19~24세".data,
        "unknown".data, "기타:bike, junk".data, "첫방문".data⟩).2.drop 7).take 4).count 1 =
      (if ("unknown".data : PyStr) ∈ RESIDENCE_OPTIONS then 1 else 0) := by
  have h := c5_row_blocks ⟨1, [], "2024-06-03".data, "여성".data, "만19~24세".data,
    "unknown".data, "기타:bike, junk".data, "첫방문".data⟩
  exact ⟨h.1, h.2.2.2.2.2.2.1, h.2.2.2.2.1⟩

/-! ## Aggregator lemmas -/

theorem insertDesc_perm (x : PyStr × Nat) : ∀ l, (insertDesc x l).Perm (x :: l)
  | [] => List.Perm.refl _
  | y :: ys => by
    rw [insertDesc]
    split
    · exact List.Perm.refl _
    · exact (List.Perm.cons y (insertDesc_perm x ys)).trans (List.Perm.swap x y ys)

theorem sortDescByCount_perm : ∀ l, (sortDescByCount l).Perm l
  | [] => List.Perm.refl _
  | x :: t => by
    rw [sortDescByCount, List.foldr_cons]
    exact (insertDesc_perm x _).trans (List.Perm.cons x (sortDescByCount_perm t))

theorem valueCounts_sum (l : List PyStr) :
    ((valueCounts l).map (fun x => x.2)).sum = l.length := by
  rw [valueCounts, List.map_map]
  exact List.sum_map_count_dedup_eq_length l

theorem valueCounts_map_fst (l : List PyStr) :
    (valueCounts l).map (fun x => x.1) = l.dedup := by
  rw [valueCounts, List.map_map]
  have hc : ((fun x : PyStr × Nat => x.1) ∘
      fun v => (v, l.countP (fun x => x = v))) = fun v => v := rfl
  rw [hc]
  simp

theorem filter_flatten_length {α : Type} (p : α → Bool) :
    ∀ ls : List (List α),
      ((ls.flatten).filter p).length = (ls.map (fun l => (l.filter p).length)).sum
  | [] => rfl
  | a :: t => by
    rw [List.flatten_cons, List.filter_append, List.length_append,
      filter_flatten_length p t, List.map_cons, List.sum_cons]

/-- C6: the claim's split rule is wrong on the code: `calc_purpose_ratio`
splits on the exact two-character separator `", "` and does not trim, so a
purpose string containing a bare comma stays one token.  On the row set with
the single purpose string `"a,b"`, the code produces the single label `"a,b"`
and no label `"a"`, while the claimed comma-split/trim tokenisation yields the
two tokens `"a"` and `"b"`. -/
theorem c6_counterexample :
    claimedPurposeTokens [⟨1, [], [], [], [], [], "a,b".data, []⟩] =
      ["a".data, "b".data] ∧
    purposeTokens [⟨1, [], [], [], [], [], "a,b".data, []⟩] = ["a,b".data] ∧
    (calc_purpose_ratio [⟨1, [], [], [], [], [], "a,b".data, []⟩]).map
        (fun x => x.1) = ["a,b".data] ∧
    "a".data ∉ (calc_purpose_ratio [⟨1, [], [], [], [], [], "a,b".data, []⟩]).map
        (fun x => x.1) := by
  refine ⟨by decide, by decide, ?_, ?_⟩ <;> decide

/-- C6 (amended): `calc_purpose_ratio` explodes each row's purpose string on
the literal two-character separator `", "` (untrimmed tokens), discards empty
tokens, and computes counts and percentages over the resulting multiset of
tag instances: the labels are exactly the distinct tokens, each count is the
token's multiplicity, each percent is count over the multiset size times 100
rounded to one decimal, and a row carrying k tokens contributes k units to
the denominator. -/
theorem c6_purpose_ratio (df : List Visit) :
    ((calc_purpose_ratio df).map (fun x => x.1)).Perm (purposeTokens df).dedup ∧
    (∀ e ∈ calc_purpose_ratio df,
      e.2.1 = (purposeTokens df).countP (fun t => t = e.1) ∧
      e.2.2 = (if (purposeTokens df).length = 0 then 0
        else round1 ((e.2.1 : ℚ) / ((purposeTokens df).length : ℚ) * 100))) ∧
    (purposeTokens df).length =
      (df.map (fun r =>
        ((splitCommaSpace r.purpose).filter (fun t => t ≠ [])).length)).sum := by
  have hflat : (purposeTokens df).length =
      (df.map (fun r =>
        ((splitCommaSpace r.purpose).filter (fun t => t ≠ [])).length)).sum := by
    rw [purposeTokens, filter_flatten_length, List.map_map]
    rfl
  by_cases hdf : df.isEmpty
  · rw [List.isEmpty_iff.mp hdf] at hflat ⊢
    refine ⟨?_, ?_, hflat⟩
    · rw [calc_purpose_ratio]
      simp [purposeTokens]
    · intro e he
      rw [calc_purpose_ratio] at he
      simp at he
  · rw [calc_purpose_ratio, if_neg hdf]
    have hperm : (sortDescByCount (valueCounts (purposeTokens df))).Perm
        (valueCounts (purposeTokens df)) := sortDescByCount_perm _
    have htot : ((sortDescByCount (valueCounts (purposeTokens df))).map
        (fun x => x.2)).sum = (purposeTokens df).length := by
      rw [(hperm.map (fun x => x.2)).sum_eq, valueCounts_sum]
    refine ⟨?_, ?_, hflat⟩
    · rw [List.map_map]
      show ((sortDescByCount (valueCounts (purposeTokens df))).map
        (fun x : PyStr × Nat => x.1)).Perm (purposeTokens df).dedup
      rw [← valueCounts_map_fst]
      exact hperm.map (fun x => x.1)
    · intro e he
      obtain ⟨x, hx, rfl⟩ := List.mem_map.mp he
      have hx' : x ∈ valueCounts (purposeTokens df) := hperm.mem_iff.mp hx
      obtain ⟨v, _, rfl⟩ := List.mem_map.mp hx'
      refine ⟨rfl, ?_⟩
      dsimp only
      rw [htot]

/-- C6 witness: the amended characterisation at the counterexample row. -/
theorem c6_purpose_ratio_witness :
    (((calc_purpose_ratio [⟨1, [], [], [], [], [], "a,b".data, []⟩]).map
        (fun x => x.1)).Perm
      (purposeTokens [⟨1, [], [], [], [], [], "a,b".data, []⟩]).dedup) ∧
    (∀ e ∈ calc_purpose_ratio [⟨1, [], [], [], [], [], "a,b".data, []⟩],
      e.2.1 = (purposeTokens [⟨1, [], [], [], [], [], "a,b".data, []⟩]).countP
          (fun t => t = e.1) ∧
      e.2.2 = (if (purposeTokens [⟨1, [], [], [], [], [], "a,b".data, []⟩]).length = 0
        then 0
        else round1 ((e.2.1 : ℚ) /
          ((purposeTokens [⟨1, [], [], [], [], [], "a,b".data, []⟩]).length : ℚ) *
            100))) ∧
    (purposeTokens [⟨1, [], [], [], [], [], "a,b".data, []⟩]).length =
      (([⟨1, [], [], [], [], [], "a,b".data, []⟩] : List Visit).map (fun r =>
        ((splitCommaSpace r.purpose).filter (fun t => t ≠ [])).length)).sum :=
  c6_purpose_ratio [⟨1, [], [], [], [], [], "a,b".data, []⟩]

theorem round1_close (q : ℚ) : |round1 q - q| ≤ 1 / 20 := by
  rw [round1]
  have h := abs_sub_round (q * 10)
  have h10 : |(10 : ℚ)| = 10 := by norm_num
  calc |(round (q * 10) : ℤ) / 10 - q|
      = |((round (q * 10) : ℤ) - q * 10) / 10| := by ring_nf
    _ = |((round (q * 10) : ℤ) - q * 10)| / 10 := by rw [abs_div, h10]
    _ ≤ (1 / 2) / 10 := by
        rw [abs_sub_comm]
        exact (div_le_div_iff_of_pos_right (by norm_num)).mpr h
    _ = 1 / 20 := by norm_num

theorem sum_round1_close : ∀ l : List ℚ,
    |(l.map round1).sum - l.sum| ≤ (l.length : ℚ) * (1 / 20)
  | [] => by simp
  | a :: t => by
    rw [List.map_cons, List.sum_cons, List.sum_cons, List.length_cons]
    have h1 := round1_close a
    have h2 := sum_round1_close t
    calc |round1 a + (t.map round1).sum - (a + t.sum)|
        = |(round1 a - a) + ((t.map round1).sum - t.sum)| := by ring_nf
      _ ≤ |round1 a - a| + |(t.map round1).sum - t.sum| := abs_add _ _
      _ ≤ 1 / 20 + (t.length : ℚ) * (1 / 20) := add_le_add h1 h2
      _ = ((t.length + 1 : ℕ) : ℚ) * (1 / 20) := by push_cast; ring

/-- C7: for a non-empty row set, every entry of `calc_ratio` carries the count
of its label in the column and the percent `round1(count / total * 100)`, and
the percents sum to 100 within the rounding tolerance of one half-unit of the
last decimal per entry; the empty row set yields the empty sequence. -/
theorem c7_percent_sum (df : List Visit) (col : Visit → PyStr) :
    (df = [] → calc_ratio df col = []) ∧
    (df ≠ [] →
      (∀ e ∈ calc_ratio df col,
        e.2.1 = (df.map col).countP (fun t => t = e.1) ∧
        e.2.2 = round1 ((e.2.1 : ℚ) / ((df.map col).length : ℚ) * 100)) ∧
      |((calc_ratio df col).map (fun e => e.2.2)).sum - 100| ≤
        ((calc_ratio df col).length : ℚ) * (1 / 20)) := by
  constructor
  · intro h
    subst h
    rfl
  · intro hne
    have hme : ¬ df.isEmpty = true := fun h => hne (List.isEmpty_iff.mp h)
    rw [calc_ratio, if_neg hme]
    have hperm := sortDescByCount_perm (valueCounts (df.map col))
    have htot : ((sortDescByCount (valueCounts (df.map col))).map
        (fun x => x.2)).sum = (df.map col).length := by
      rw [(hperm.map (fun x => x.2)).sum_eq, valueCounts_sum]
    have hlen0 : (df.map col).length ≠ 0 := by
      rw [List.length_map]
      exact fun h => hne (List.length_eq_zero.mp h)
    have htot0 : ((sortDescByCount (valueCounts (df.map col))).map
        (fun x => x.2)).sum ≠ 0 := by rw [htot]; exact hlen0
    constructor
    · intro e he
      obtain ⟨x, hx, rfl⟩ := List.mem_map.mp he
      obtain ⟨v, _, rfl⟩ := List.mem_map.mp (hperm.mem_iff.mp hx)
      refine ⟨rfl, ?_⟩
      show (if ((sortDescByCount (valueCounts (df.map col))).map
          (fun x => x.2)).sum = 0 then (0 : ℚ) else _) = _
      rw [if_neg htot0, htot]
    · rw [List.map_map, List.length_map]
      have hmapped :
          (sortDescByCount (valueCounts (df.map col))).map
            ((fun e : PyStr × Nat × ℚ => e.2.2) ∘ (fun x : PyStr × Nat =>
              (x.1, x.2,
                if ((sortDescByCount (valueCounts (df.map col))).map
                    (fun x => x.2)).sum = 0 then 0
                else round1 ((x.2 : ℚ) /
                  (((((sortDescByCount (valueCounts (df.map col))).map
                    (fun x => x.2)).sum : ℕ) : ℚ)) * 100)))) =
          ((sortDescByCount (valueCounts (df.map col))).map (fun x : PyStr × Nat =>
            (x.2 : ℚ) / (((((sortDescByCount (valueCounts (df.map col))).map
              (fun x => x.2)).sum : ℕ) : ℚ)) * 100)).map round1 := by
        rw [List.map_map]
        exact List.map_congr_left (fun x _ => by
          show (if ((sortDescByCount (valueCounts (df.map col))).map
              (fun x => x.2)).sum = 0 then (0 : ℚ) else _) = _
          rw [if_neg htot0]
          rfl)
      rw [hmapped]
      have hsum : ((sortDescByCount (valueCounts (df.map col))).map
          (fun x : PyStr × Nat =>
            (x.2 : ℚ) / (((((sortDescByCount (valueCounts (df.map col))).map
              (fun x => x.2)).sum : ℕ) : ℚ)) * 100)).sum = 100 := by
        have hstep : ∀ x ∈ sortDescByCount (valueCounts (df.map col)),
            (x.2 : ℚ) / (((((sortDescByCount (valueCounts (df.map col))).map
              (fun x => x.2)).sum : ℕ) : ℚ)) * 100 =
            (x.2 : ℚ) * (100 / (((((sortDescByCount (valueCounts (df.map col))).map
              (fun x => x.2)).sum : ℕ) : ℚ))) := by
          intro x _
          ring
        rw [List.map_congr_left hstep, List.sum_map_mul_right]
        have hcast : ((sortDescByCount (valueCounts (df.map col))).map
            (fun x : PyStr × Nat => (x.2 : ℚ))).sum =
            ((((sortDescByCount (valueCounts (df.map col))).map
              (fun x => x.2)).sum : ℕ) : ℚ) := by
          rw [Nat.cast_list_sum, List.map_map]
          rfl
        rw [hcast]
        have hz : ((((sortDescByCount (valueCounts (df.map col))).map
            (fun x => x.2)).sum : ℕ) : ℚ) ≠ 0 := Nat.cast_ne_zero.mpr htot0
        rw [mul_comm, div_mul_cancel₀ _ hz]
      have hbound := sum_round1_close ((sortDescByCount (valueCounts (df.map col))).map
        (fun x : PyStr × Nat =>
          (x.2 : ℚ) / (((((sortDescByCount (valueCounts (df.map col))).map
            (fun x => x.2)).sum : ℕ) : ℚ)) * 100))
      rw [hsum, List.length_map] at hbound
      exact hbound

/-- C7 witness: a concrete one-row breakdown through `c7_percent_sum`. -/
theorem c7_percent_sum_witness :
    (∀ e ∈ calc_ratio [⟨1, [], [], "여성".data, [], [], [], []⟩] (fun r => r.gender),
      e.2.1 = (([⟨1, [], [], "여성".data, [], [], [], []⟩] : List Visit).map
          (fun r => r.gender)).countP (fun t => t = e.1) ∧
      e.2.2 = round1 ((e.2.1 : ℚ) /
        ((([⟨1, [], [], "여성".data, [], [], [], []⟩] : List Visit).map
          (fun r => r.gender)).length : ℚ) * 100)) ∧
    |((calc_ratio [⟨1, [], [], "여성".data, [], [], [], []⟩]
          (fun r => r.gender)).map (fun e => e.2.2)).sum - 100| ≤
      ((calc_ratio [⟨1, [], [], "여성".data, [], [], [], []⟩]
          (fun r => r.gender)).length : ℚ) * (1 / 20) :=
  (c7_percent_sum [⟨1, [], [], "여성".data, [], [], [], []⟩]
    (fun r => r.gender)).2 (by decide)

theorem purpose_opts_no_colon :
    ∀ p ∈ PURPOSE_OPTIONS, gitaColon.isPrefixOf p = false := by decide

/-- C10: an exploded token of the form `"기타:<text>"` with non-empty text is
counted by `calc_purpose_ratio` under its full literal label (its count is the
multiplicity of exactly that token), such a token is not one of the fixed
purpose options (so it forms its own category), while the matrix exporter's
`purpose_to_flags` folds any purpose string containing such a token into the
single `"기타"` flag. -/
theorem c10_other_text_label (df : List Visit) (text : PyStr)
    (htext : text ≠ [])
    (hmem : (gitaColon ++ text) ∈ purposeTokens df) :
    (∃ p, (gitaColon ++ text,
        (purposeTokens df).countP (fun t => t = gitaColon ++ text), p) ∈
      calc_purpose_ratio df) ∧
    (gitaColon ++ text) ∉ PURPOSE_OPTIONS ∧
    (∀ s : PyStr, (gitaColon ++ text) ∈ purposeItems s →
      purpose_to_flags s gita = 1) := by
  have hpre : gitaColon.isPrefixOf (gitaColon ++ text) = true :=
    List.isPrefixOf_iff_prefix.mpr (List.prefix_append _ _)
  refine ⟨?_, ?_, ?_⟩
  · have hdf : ¬ df.isEmpty = true := by
      intro h
      rw [List.isEmpty_iff.mp h] at hmem
      simp [purposeTokens] at hmem
    rw [calc_purpose_ratio, if_neg hdf]
    have hdedup : (gitaColon ++ text) ∈ (purposeTokens df).dedup :=
      List.mem_dedup.mpr hmem
    have hvc : (gitaColon ++ text,
        (purposeTokens df).countP (fun t => t = gitaColon ++ text)) ∈
        valueCounts (purposeTokens df) := by
      rw [valueCounts]
      exact List.mem_map.mpr ⟨_, hdedup, rfl⟩
    have hsorted := (sortDescByCount_perm
      (valueCounts (purposeTokens df))).mem_iff.mpr hvc
    exact ⟨_, List.mem_map.mpr ⟨_, hsorted, rfl⟩⟩
  · intro hopt
    have hfalse := purpose_opts_no_colon _ hopt
    rw [hpre] at hfalse
    exact Bool.noConfusion hfalse
  · intro s hs
    have hany : (purposeItems s).any gitaTok = true :=
      List.any_eq_true.mpr ⟨_, hs, by rw [gitaTok, hpre, Bool.true_or]⟩
    rw [purpose_to_flags, purpose_foldl_char, if_pos (Or.inl ⟨rfl, hany⟩)]

/-- C10 witness: a concrete row with the purpose string `"기타:bike"`. -/
theorem c10_other_text_label_witness :
    ("bike".data : PyStr) ≠ [] ∧
      (gitaColon ++ "bike".data) ∈
        purposeTokens [⟨1, [], [], [], [], [], "기타:bike".data, []⟩] ∧
      ((∃ p, (gitaColon ++ "bike".data,
          (purposeTokens [⟨1, [], [], [], [], [], "기타:bike".data, []⟩]).countP
            (fun t => t = gitaColon ++ "bike".data), p) ∈
        calc_purpose_ratio [⟨1, [], [], [], [], [], "기타:bike".data, []⟩]) ∧
      (gitaColon ++ "bike".data) ∉ PURPOSE_OPTIONS ∧
      (∀ s : PyStr, (gitaColon ++ "bike".data) ∈ purposeItems s →
        purpose_to_flags s gita = 1)) :=
  ⟨by decide, by decide,
   c10_other_text_label [⟨1, [], [], [], [], [], "기타:bike".data, []⟩]
     "bike".data (by decide) (by decide)⟩

/-- C9: deleting or updating an id that is not present leaves the table
unchanged and reports zero rows affected, without an error. -/
theorem c9_missing_id_noop (db : List Visit) (record_id : Int)
    (h : ∀ v ∈ db, v.id ≠ record_id)
    (visit_date gender age residence purpose visit_type : PyStr) :
    delete_visit db record_id = (db, 0) ∧
    update_visit db record_id visit_date gender age residence purpose
      visit_type = (db, 0) := by
  have hcount : db.countP (fun v => v.id = record_id) = 0 :=
    List.countP_eq_zero.mpr (fun v hv => by simpa using h v hv)
  constructor
  · rw [delete_visit, hcount,
      List.filter_eq_self.mpr (fun v hv => by simpa using h v hv)]
  · rw [update_visit, hcount,
      List.map_congr_left (fun v hv => if_neg (h v hv))]
    rw [List.map_id']

/-- C9 witness: deleting and updating id 9999 in a one-row table that only
contains id 1. -/
theorem c9_missing_id_noop_witness :
    (∀ v ∈ ([⟨1, [], [], [], [], [], [], []⟩] : List Visit), v.id ≠ 9999) ∧
      delete_visit [⟨1, [], [], [], [], [], [], []⟩] 9999 =
        ([⟨1, [], [], [], [], [], [], []⟩], 0) ∧
      update_visit [⟨1, [], [], [], [], [], [], []⟩] 9999
          "2024-06-03".data "여성".data [] [] [] [] =
        ([⟨1, [], [], [], [], [], [], []⟩], 0) :=
  ⟨by decide,
   (c9_missing_id_noop [⟨1, [], [], [], [], [], [], []⟩] 9999 (by decide)
     "2024-06-03".data "여성".data [] [] [] []).1,
   (c9_missing_id_noop [⟨1, [], [], [], [], [], [], []⟩] 9999 (by decide)
     "2024-06-03".data "여성".data [] [] [] []).2⟩
